import Mathlib

/-!
# A shallow embedding of the CrystalAnalyst/Lsm storage engine

This file embeds the parts of the LSM storage engine that the verified
properties talk about: the versioned key type and its ordering (`src/key.rs`),
the block encoding (`src/block.rs`, `src/block/builder.rs`,
`src/block/iterator.rs`), the merging iterators
(`src/iterators/two_merge_iterator.rs`, `src/iterators/merge_iterator.rs`,
`src/iterators/concat_iterator.rs`), the memtable (`src/mem_table.rs`), the
read path (`src/lsm_storage.rs`, `src/lsm_iterator.rs`), the MVCC transaction
(`src/mvcc/txn.rs`) and the leveled compaction controller
(`src/compact/leveled.rs`, `src/compact.rs`).

Conventions of the embedding:
* Rust byte slices (`&[u8]`, `Bytes`, `Vec<u8>`) are `List Nat` with each
  element standing for one byte;
* machine integers are `Nat` (overflow is modelled explicitly where the
  source can overflow);
* a Rust `panic!` / failed `assert!` / out-of-bounds index / `unwrap` on
  `None` / `todo!()` is modelled as `Except.error` with a message naming the
  panic;
* iterators are modelled by their observable behaviour: a `StorageIterator`
  source is the list of entries it will still yield (`is_valid` = the list is
  nonempty, `key`/`value` = the head, `next` = the tail).
-/

namespace Lsm

/-- A byte string (`&[u8]` / `Bytes` / `Vec<u8>` in the source). -/
abbrev Bytes := List Nat

/-- Lexicographic comparison of byte slices, the `Ord` instance of Rust's
`[u8]`: element-wise comparison, a strict prefix compares less. -/
def byteCmp : Bytes → Bytes → Ordering
  | [], [] => .eq
  | [], _ :: _ => .lt
  | _ :: _, [] => .gt
  | a :: as, b :: bs =>
    match compare a b with
    | .eq => byteCmp as bs
    | o => o

/-- `src/key.rs` line 11: `pub struct Key<T: AsRef<[u8]>>(T, u64);` — a user
key together with a timestamp. -/
structure Key where
  userKey : Bytes
  ts : Nat
deriving DecidableEq, Repr

/-- `src/key.rs` lines 7-8: `TS_RANGE_BEGIN: u64 = u64::MAX`. -/
def TS_RANGE_BEGIN : Nat := 2 ^ 64 - 1

/-- `src/key.rs` line 8: `TS_RANGE_END: u64 = u64::MIN`. -/
def TS_RANGE_END : Nat := 0

/-- `src/key.rs` lines 61-71, `PartialOrd`/`Ord for Key<T>`:
`self.0.cmp(&other.0)` — the comparison delegates to the inner byte string
and ignores the timestamp field entirely. -/
def Key.cmp (a b : Key) : Ordering := byteCmp a.userKey b.userKey

/-- `src/key.rs` lines 53-57, `PartialEq for Key<T>`: `self.0.eq(&other.0)` —
equality also ignores the timestamp. -/
def Key.beq (a b : Key) : Bool := a.cmp b == .eq

/-- C2: the claim states that the key comparison orders equal user keys by
timestamp descending, so that two keys with the same user key and different
timestamps are never equal and the larger timestamp compares smaller. The
code (`src/key.rs` lines 53-71) compares only the user key: the two keys
`([0], ts = 1)` and `([0], ts = 2)` compare `Equal` (and are `==`), and the
key with the larger timestamp does not compare smaller. -/
theorem key_ord_ignores_timestamp :
    Key.cmp ⟨[0], 1⟩ ⟨[0], 2⟩ = Ordering.eq ∧
      Key.beq ⟨[0], 1⟩ ⟨[0], 2⟩ = true ∧
      Key.cmp ⟨[0], 2⟩ ⟨[0], 1⟩ ≠ Ordering.lt := by
  refine ⟨rfl, rfl, ?_⟩
  decide

/-! ## Block encoding (`src/block.rs`) -/

/-- Big-endian encoding of a `u16` (the `put_u16` of the `bytes` crate). -/
def u16be (n : Nat) : List Nat := [n / 256 % 256, n % 256]

/-- Big-endian decoding of a `u16` from the front of a buffer (`get_u16`).
The source panics on a buffer shorter than two bytes; every use below is
guarded so that case is unreachable, and it is mapped to `0` here. -/
def u16de : List Nat → Nat
  | b0 :: b1 :: _ => b0 * 256 + b1
  | _ => 0

/-- Big-endian encoding of a `u64` (`put_u64`). -/
def u64be (n : Nat) : List Nat :=
  [n / 2 ^ 56 % 256, n / 2 ^ 48 % 256, n / 2 ^ 40 % 256, n / 2 ^ 32 % 256,
   n / 2 ^ 24 % 256, n / 2 ^ 16 % 256, n / 2 ^ 8 % 256, n % 256]

/-- Big-endian decoding of a `u64` from the front of a buffer (`get_u64`);
uses of it below check that eight bytes are available, because the source
panics otherwise. -/
def u64de (l : Bytes) : Nat :=
  (l.take 8).foldl (fun acc b => acc * 256 + b) 0

/-- `src/block.rs` lines 11-14: a block is the serialized entry data plus the
entry offsets. In the source `offsets` is `Vec<u16>`, so every element is
below `2 ^ 16` by construction; here that is carried as a hypothesis where it
matters. -/
structure Block where
  data : List Nat
  offsets : List Nat
deriving DecidableEq, Repr

/-- The offset section of an encoded block: each offset as big-endian `u16`,
in order (`src/block.rs` lines 22-24). -/
def offsetsToBytes : List Nat → List Nat
  | [] => []
  | o :: os => u16be o ++ offsetsToBytes os

/-- `Block::encode` (`src/block.rs` lines 17-29): the data bytes, then the
offsets as `u16`s, then the number of offsets as a `u16`. -/
def Block.encode (b : Block) : List Nat :=
  b.data ++ offsetsToBytes b.offsets ++ u16be (b.offsets.length % 2 ^ 16)

/-- Reads consecutive two-byte chunks back into `u16` values (the
`chunks(SIZEOF_U16).map(get_u16)` of `Block::decode`). A trailing odd byte
would make `get_u16` panic in the source; it cannot arise from `decode`'s
arithmetic and is mapped to the empty list here. -/
def chunksToU16 : List Nat → List Nat
  | b0 :: b1 :: rest => (b0 * 256 + b1) :: chunksToU16 rest
  | _ => []

/-- `Block::decode` (`src/block.rs` lines 31-45): read the entry count from
the last two bytes, locate the offset section, and split the buffer back
into data and offsets. -/
def Block.decode (bytes : List Nat) : Block :=
  let n := bytes.length
  let entryOffsetsLen := u16de (bytes.drop (n - 2))
  let dataEnd := n - 2 - entryOffsetsLen * 2
  { data := bytes.take dataEnd,
    offsets := chunksToU16 ((bytes.drop dataEnd).take (n - 2 - dataEnd)) }

theorem offsetsToBytes_length (os : List Nat) :
    (offsetsToBytes os).length = 2 * os.length := by
  induction os with
  | nil => rfl
  | cons o os ih => simp [offsetsToBytes, u16be, ih]; omega

theorem chunksToU16_offsetsToBytes (os : List Nat) (h : ∀ o ∈ os, o < 2 ^ 16) :
    chunksToU16 (offsetsToBytes os) = os := by
  induction os with
  | nil => rfl
  | cons o os ih =>
    have ho : o < 2 ^ 16 := h o (by simp)
    have hdiv : o / 256 < 256 := by omega
    simp only [offsetsToBytes, u16be, List.cons_append, List.nil_append,
      List.append_nil, List.append, chunksToU16]
    rw [ih (fun x hx => h x (by simp [hx]))]
    congr 1
    rw [Nat.mod_eq_of_lt hdiv]
    omega

theorem u16de_u16be (k : Nat) (h : k < 2 ^ 16) : u16de (u16be k) = k := by
  have : k / 256 < 256 := by omega
  simp only [u16be, u16de]
  rw [Nat.mod_eq_of_lt this]
  omega

/-- C10: for every block whose offsets and entry count fit in `u16` (as the
`Vec<u16>` of the source guarantees) and which has at least one entry,
`Block::decode (Block::encode b) = b`: both the data bytes and the offset
array survive the round trip unchanged. -/
theorem block_decode_encode (b : Block) (hne : b.offsets ≠ [])
    (hofs : ∀ o ∈ b.offsets, o < 2 ^ 16) (hcnt : b.offsets.length < 2 ^ 16) :
    Block.decode (Block.encode b) = b := by
  obtain ⟨data, offsets⟩ := b
  simp only [ne_eq] at hne hofs hcnt
  have hcnt' : offsets.length < 65536 := hcnt
  have hoblen : (offsetsToBytes offsets).length = 2 * offsets.length :=
    offsetsToBytes_length offsets
  have hassoc : Block.encode ⟨data, offsets⟩
      = (data ++ offsetsToBytes offsets) ++ u16be offsets.length := by
    simp only [Block.encode, List.append_assoc]
    congr 2
    congr 1
    omega
  have hlen : (Block.encode ⟨data, offsets⟩).length
      = data.length + 2 * offsets.length + 2 := by
    rw [hassoc]
    simp only [List.length_append, hoblen, u16be, List.length_cons,
      List.length_nil]
  have hdrop : (Block.encode ⟨data, offsets⟩).drop
      (data.length + 2 * offsets.length + 2 - 2) = u16be offsets.length := by
    rw [hassoc]
    exact List.drop_left' (by simp only [List.length_append, hoblen]; omega)
  show Block.decode (Block.encode ⟨data, offsets⟩) = _
  rw [Block.decode]
  simp only [hlen, hdrop, u16de_u16be _ hcnt]
  have hdataEnd : data.length + 2 * offsets.length + 2 - 2 - offsets.length * 2
      = data.length := by omega
  rw [hdataEnd]
  have hdropD : (Block.encode ⟨data, offsets⟩).drop data.length
      = offsetsToBytes offsets ++ u16be offsets.length := by
    rw [hassoc, List.append_assoc]
    exact List.drop_left' rfl
  have htakeD : (Block.encode ⟨data, offsets⟩).take data.length = data := by
    rw [hassoc, List.append_assoc]
    exact List.take_left' rfl
  have htakeN : data.length + 2 * offsets.length + 2 - 2 - data.length
      = 2 * offsets.length := by omega
  rw [hdropD, htakeD, htakeN]
  have htake : (offsetsToBytes offsets ++ u16be offsets.length).take
      (2 * offsets.length) = offsetsToBytes offsets :=
    List.take_left' (by omega)
  rw [htake, chunksToU16_offsetsToBytes offsets hofs]

/-- Witness for `block_decode_encode`: the concrete block with data bytes
`[1, 2, 3]` and a single entry offset `0` round-trips. -/
theorem block_decode_encode_witness :
    Block.decode (Block.encode ⟨[1, 2, 3], [0]⟩) = ⟨[1, 2, 3], [0]⟩ :=
  block_decode_encode ⟨[1, 2, 3], [0]⟩ (by decide) (by decide) (by decide)

/-! ## BlockBuilder entries (`src/block/builder.rs`) and the first-key reader
(`src/block/iterator.rs`) -/

/-- `common_prefix` (`src/block/builder.rs` lines 19-33): the length of the
longest common prefix of the block's first key and the new key. -/
def commonPrefixLen : Bytes → Bytes → Nat
  | a :: as, b :: bs => if a = b then commonPrefixLen as bs + 1 else 0
  | _, _ => 0

/-- The bytes `BlockBuilder::add` appends to `data` for one entry
(`src/block/builder.rs` lines 66-74): `overlap:u16 | rest_len:u16 |
rest_bytes | value_len:u16 | value_bytes`. The source calls `key.len()` and
`key.raw_ref()` on the key, i.e. only the user-key bytes; no timestamp field
is written. -/
def addEntryBytes (firstKey : Bytes) (key : Bytes) (value : Bytes) : List Nat :=
  let p := commonPrefixLen firstKey key
  u16be p ++ u16be (key.length - p) ++ key.drop p ++ u16be value.length ++ value

/-- The entry layout the specification claims (`entry := overlap:u16 |
rest_len:u16 | rest_bytes | ts:u64 | value_len:u16 | value_bytes`), written
from the spec's words for comparison with `addEntryBytes`. -/
def specClaimedEntryBytes (firstKey : Bytes) (key : Key) (value : Bytes) :
    List Nat :=
  let p := commonPrefixLen firstKey key.userKey
  u16be p ++ u16be (key.userKey.length - p) ++ key.userKey.drop p ++
    u64be key.ts ++ u16be value.length ++ value

/-- `Block::get_first_key` (`src/block/iterator.rs` lines 23-34): skip the
`u16` overlap, read the `u16` key length and the key bytes, then read a
`u64` timestamp. Returns `none` where the source's `get_u64` would panic
(fewer than eight bytes remaining in the buffer). -/
def Block.getFirstKey (b : Block) : Option Key :=
  match b.data with
  | _o1 :: _o2 :: l1 :: l2 :: rest =>
    let keyLen := l1 * 256 + l2
    if keyLen + 8 ≤ rest.length then
      some ⟨rest.take keyLen, u64de (rest.drop keyLen)⟩
    else none
  | _ => none

/-- C3: the claim states that each entry written by `BlockBuilder::add`
carries the key's 8-byte timestamp between the key suffix and the value
length, and that the block iterator reads it back under that layout. The
code writes no timestamp: for the first entry `(key = "11", ts = 1,
value = "11")` the appended bytes are
`[0,0, 0,2, 49,49, 0,2, 49,49]` — overlap, rest length, key bytes, value
length, value, with no `ts:u64` — which differs from the claimed layout;
consequently `Block::get_first_key`, which does expect the timestamp field,
fails on the very block the builder produced (its `get_u64` runs past the
end of the entry). -/
theorem block_builder_entry_has_no_timestamp :
    addEntryBytes [] [49, 49] [49, 49]
        = [0, 0, 0, 2, 49, 49, 0, 2, 49, 49] ∧
      addEntryBytes [] [49, 49] [49, 49]
        ≠ specClaimedEntryBytes [] ⟨[49, 49], 1⟩ [49, 49] ∧
      Block.getFirstKey ⟨addEntryBytes [] [49, 49] [49, 49], [0]⟩ = none := by
  refine ⟨rfl, ?_, rfl⟩
  decide

/-! ## Storage iterators

A `StorageIterator` source is modelled by the list of entries it will still
yield: `is_valid()` is "the list is nonempty", `key()`/`value()` read the
head, `next()` drops the head. -/

/-- One `(key, value)` entry of an iterator. -/
structure Entry where
  key : Key
  value : Bytes
deriving DecidableEq, Repr

/-- The remaining output of a `StorageIterator`. -/
abbrev Stream := List Entry

/-! ### TwoMergeIterator (`src/iterators/two_merge_iterator.rs`) -/

/-- `TwoMergeIterator` (`src/iterators/two_merge_iterator.rs` lines 5-11):
the two sources plus the `choose_a` flag. -/
structure TwoMergeIterator where
  a : Stream
  b : Stream
  choose_a : Bool
deriving DecidableEq, Repr

/-- `TwoMergeIterator::choose_a` (lines 32-42): `false` when `a` is invalid,
`false` when `b` is invalid, otherwise `a.key() < b.key()`. -/
def chooseA (a b : Stream) : Bool :=
  match a, b with
  | [], _ => false
  | _, [] => false
  | ea :: _, eb :: _ => ea.key.cmp eb.key == .lt

/-- `TwoMergeIterator::skip_b` (lines 45-50): when both sources are valid and
`b.key() == a.key()`, advance `b` once. -/
def skipB (a b : Stream) : Stream :=
  match a, b with
  | ea :: _, eb :: bs => if eb.key.cmp ea.key == .eq then bs else eb :: bs
  | _, _ => b

/-- `TwoMergeIterator::create` (lines 19-28). -/
def TwoMergeIterator.create (a b : Stream) : TwoMergeIterator :=
  let b' := skipB a b
  ⟨a, b', chooseA a b'⟩

/-- `TwoMergeIterator::is_valid` (lines 60-66): validity of the currently
chosen source. -/
def TwoMergeIterator.isValid (m : TwoMergeIterator) : Bool :=
  if m.choose_a then !m.a.isEmpty else !m.b.isEmpty

/-- `TwoMergeIterator::key`/`value` (lines 68-82): the chosen source's
current entry (`none` models the source's panic on an invalid source). -/
def TwoMergeIterator.peek (m : TwoMergeIterator) : Option Entry :=
  if m.choose_a then m.a.head? else m.b.head?

/-- `TwoMergeIterator::next` (lines 84-93): advance the chosen source, run
`skip_b`, recompute `choose_a`. -/
def TwoMergeIterator.next (m : TwoMergeIterator) : TwoMergeIterator :=
  let a := if m.choose_a then m.a.tail else m.a
  let b := if m.choose_a then m.b else m.b.tail
  let b' := skipB a b
  ⟨a, b', chooseA a b'⟩

/-- The observable output of a `TwoMergeIterator`: repeatedly read the
current entry while valid, with fuel bounding the number of steps. -/
def TwoMergeIterator.collect : Nat → TwoMergeIterator → Stream
  | 0, _ => []
  | fuel + 1, m =>
    if m.isValid then
      match m.peek with
      | some e => e :: TwoMergeIterator.collect fuel m.next
      | none => []
    else []

/-- C4: the claim states that whenever exactly one of the two sources is
still valid the merged iterator is valid and yields that source's remaining
entries — in particular A's remaining entries after B is exhausted. In the
code, `choose_a` returns `false` whenever `b` is invalid, so `is_valid`
then reads the exhausted `b`: with `A = [("b","1"), ("c","2")]` and
`B = [("a","9")]` the merged iterator yields only B's entry and drops both
of A's; with `A = [("a","1")]` and `B` empty it is invalid from the start. -/
theorem two_merge_iterator_drops_a_after_b_exhausted :
    TwoMergeIterator.collect 10
        (TwoMergeIterator.create
          [⟨⟨[98], 1⟩, [49]⟩, ⟨⟨[99], 1⟩, [50]⟩] [⟨⟨[97], 1⟩, [57]⟩])
        = [⟨⟨[97], 1⟩, [57]⟩] ∧
      (TwoMergeIterator.create [⟨⟨[97], 1⟩, [49]⟩] []).isValid = false := by
  constructor <;> rfl

/-! ### SsTable and its iterator (`src/table.rs`, `src/table/iterator.rs`)

The on-disk table is abstracted to its logical content: `entries` is the
ordered sequence of key-value entries stored in the table's data blocks;
`first_key`, `last_key`, `table_size` and `id` are the fields the `SsTable`
struct stores (file handle, block meta, bloom filter and cache are not
needed by any property below). -/

structure SsTable where
  id : Nat
  first_key : Key
  last_key : Key
  table_size : Nat
  entries : Stream
deriving DecidableEq, Repr

/-- `SsTableIterator` (`src/table/iterator.rs` lines 8-12) abstracted to a
cursor over the table's entry sequence: `block_idx` plus the inner block
position collapse to the index of the current entry; `next` (lines 86-97)
advances within the block and hops to the next block, i.e. moves to the
next entry; the iterator is valid while the index is in range. -/
structure SsTableIterator where
  entries : Stream
  idx : Nat
deriving DecidableEq, Repr

/-- `SsTableIterator::create_and_seek_to_first` (lines 15-23). -/
def SsTableIterator.createAndSeekToFirst (t : SsTable) : SsTableIterator :=
  ⟨t.entries, 0⟩

/-- `SsTableIterator::create_and_seek_to_key` (lines 39-47):
`find_block_idx` plus the in-block binary search position the cursor on the
first entry whose key is `≥ k` under the key ordering (which ignores
timestamps); past the end means invalid. -/
def SsTableIterator.createAndSeekToKey (t : SsTable) (k : Key) :
    SsTableIterator :=
  ⟨t.entries, t.entries.findIdx (fun e => !(e.key.cmp k == .lt))⟩

def SsTableIterator.isValid (it : SsTableIterator) : Bool :=
  it.idx < it.entries.length

def SsTableIterator.next (it : SsTableIterator) : SsTableIterator :=
  ⟨it.entries, it.idx + 1⟩

/-- The entries an `SsTableIterator` will still yield. -/
def SsTableIterator.remaining (it : SsTableIterator) : Stream :=
  it.entries.drop it.idx

/-! ### SstConcatIterator (`src/iterators/concat_iterator.rs`) -/

/-- `SstConcatIterator` (lines 13-20). -/
structure SstConcatIterator where
  current : Option SsTableIterator
  next_sst_id : Nat
  sstables : List SsTable
deriving DecidableEq, Repr

/-- `check_sst_valid` (lines 57-68): each table's first key is `≤` its last
key, and each table's last key is `<` the next table's first key. -/
def checkSstValid (ssts : List SsTable) : Bool :=
  ssts.all (fun t => !(t.first_key.cmp t.last_key == .gt)) &&
    checkAdjacentOrdered ssts
where
  checkAdjacentOrdered : List SsTable → Bool
    | a :: b :: rest =>
      (a.last_key.cmp b.first_key == .lt) && checkAdjacentOrdered (b :: rest)
    | _ => true

/-- `move_until_valid` (lines 71-87): while the current inner iterator is
invalid, replace it with an iterator over the next table, or drop it when
the tables are exhausted. Fuel bounds the loop (one table per step). -/
def moveUntilValid :
    Nat → Option SsTableIterator → Nat → List SsTable →
      Option SsTableIterator × Nat
  | 0, cur, nid, _ => (cur, nid)
  | fuel + 1, some it, nid, ssts =>
    if it.isValid then (some it, nid)
    else if ssts.length ≤ nid then (none, nid)
    else
      moveUntilValid fuel
        (some (SsTableIterator.createAndSeekToFirst (ssts.getD nid
          ⟨0, ⟨[], 0⟩, ⟨[], 0⟩, 0, []⟩)))
        (nid + 1) ssts
  | _, none, nid, _ => (none, nid)

/-- `SstConcatIterator::create_and_seek_to_first` (lines 25-48); the failed
`assert!`s of `check_sst_valid` are `Except.error`. -/
def SstConcatIterator.createAndSeekToFirst (ssts : List SsTable) :
    Except String SstConcatIterator :=
  if !checkSstValid ssts then .error "assertion failed: check_sst_valid"
  else
    match ssts with
    | [] => .ok ⟨none, 0, ssts⟩
    | first :: _ =>
      let (cur, nid) := moveUntilValid (ssts.length + 1)
        (some (SsTableIterator.createAndSeekToFirst first)) 1 ssts
      .ok ⟨cur, nid, ssts⟩

/-- `SstConcatIterator::create_and_seek_to_key` (lines 51-53): the body is
`todo!()`, which panics unconditionally (and the function takes no
arguments in the source). -/
def SstConcatIterator.createAndSeekToKey :
    Except String SstConcatIterator :=
  .error "not yet implemented"

/-- `StorageIterator::is_valid` for `SstConcatIterator` (lines 93-100):
`assert!(iter.is_valid())` on the held iterator — a held but exhausted
inner iterator makes `is_valid` panic. -/
def SstConcatIterator.isValid (c : SstConcatIterator) :
    Except String Bool :=
  match c.current with
  | some it =>
    if it.isValid then .ok true else .error "assertion failed: iter.is_valid()"
  | none => .ok false

/-- `StorageIterator::next` for `SstConcatIterator` (lines 110-113): advance
the held iterator only — the source never calls `move_until_valid` here, so
the cursor does not move on to the next table. `unwrap` on a missing
iterator is an error. -/
def SstConcatIterator.next (c : SstConcatIterator) :
    Except String SstConcatIterator :=
  match c.current with
  | some it => .ok { c with current := some it.next }
  | none => .error "called Option::unwrap on a None value"

/-- C5: the claim states that `next()` after the last entry of one SST lands
on the first entry of the following SST, and that `create_and_seek_to_key`
binary-searches the tables' first keys. In the code, `next` never advances
to the following table — after consuming the single entry of the first of
two tables, `is_valid` hits the `assert!` and panics instead of being
positioned on the second table's entry — and `create_and_seek_to_key` is
`todo!()`, which panics on every call. -/
theorem concat_iterator_next_stops_at_sst_boundary :
    ((SstConcatIterator.createAndSeekToFirst
          [⟨1, ⟨[97], 1⟩, ⟨[97], 1⟩, 10, [⟨⟨[97], 1⟩, [49]⟩]⟩,
           ⟨2, ⟨[98], 1⟩, ⟨[98], 1⟩, 10, [⟨⟨[98], 1⟩, [50]⟩]⟩]).bind
        (fun it => it.next)).bind SstConcatIterator.isValid
        = .error "assertion failed: iter.is_valid()" ∧
      SstConcatIterator.createAndSeekToKey = .error "not yet implemented" := by
  constructor <;> rfl

/-! ## MVCC transaction commit (`src/mvcc/txn.rs`) -/

/-- `Transaction::commit` (`src/mvcc/txn.rs` lines 112-114):
`pub fn commit() { todo!() }` — the function takes no receiver (so it cannot
even observe a transaction's state) and its body is `todo!()`, a panic. -/
def Transaction.commit : Except String Unit := .error "not yet implemented"

/-- C6: the claim describes the commit protocol — take the commit lock,
validate a serializable transaction's read set against the write sets of
transactions committed after `read_ts`, write the local map through
`write_batch_inner`, and mark the transaction committed. The code's
`commit` is `todo!()`: it performs none of these steps and panics on every
call, so no transaction can ever commit. -/
theorem transaction_commit_is_unimplemented :
    Transaction.commit = Except.error "not yet implemented" := rfl

/-! ### MergeIterator (`src/iterators/merge_iterator.rs`)

The `BinaryHeap<HeapWrapper<I>>` is observable only through peek/pop of its
minimum, so it is modelled as a list kept sorted by the wrapper order:
primary key ascending, ties broken by source index ascending (the reversed
`Ord` of `HeapWrapper`, lines 21-44). -/

/-- The natural (min-first) order of `HeapWrapper` (lines 21-33): compare the
iterators' current keys, then the source indices. Both iterators in a heap
are valid; the catch-all is unreachable. -/
def wrapperCmp (x y : Nat × Stream) : Ordering :=
  match x.2.head?, y.2.head? with
  | some ex, some ey =>
    match ex.key.cmp ey.key with
    | .eq => compare x.1 y.1
    | o => o
  | _, _ => .eq

/-- Insert into the sorted heap representation. -/
def heapInsert (x : Nat × Stream) : List (Nat × Stream) → List (Nat × Stream)
  | [] => [x]
  | y :: ys =>
    if wrapperCmp x y == .gt then y :: heapInsert x ys else x :: y :: ys

/-- `MergeIterator` (lines 58-64): the heap plus the current winner. -/
structure MergeIterator where
  iters : List (Nat × Stream)
  current : Option (Nat × Stream)
deriving DecidableEq, Repr

/-- `MergeIterator::create` (lines 70-104): empty input gives an empty
iterator; if every source is invalid the last source is kept as `current`
(with index 0, still invalid); otherwise the valid sources are pushed with
their indices and the minimum is popped as `current`. -/
def MergeIterator.create (its : List Stream) : MergeIterator :=
  if its.isEmpty then ⟨[], none⟩
  else if its.all List.isEmpty then ⟨[], some (0, [])⟩
  else
    let heap := (its.enum.filter (fun p => !p.2.isEmpty)).foldr heapInsert []
    match heap with
    | top :: rest => ⟨rest, some top⟩
    | [] => ⟨[], none⟩

/-- `MergeIterator::is_valid` (lines 120-125). -/
def MergeIterator.isValid (m : MergeIterator) : Bool :=
  (m.current.map (fun c => !c.2.isEmpty)).getD false

/-- `MergeIterator::key`/`value` (lines 112-118): the current winner's entry. -/
def MergeIterator.peek (m : MergeIterator) : Option Entry :=
  m.current.bind (·.2.head?)

/-- The while-loop of `MergeIterator::next` (lines 131-149): advance every
heap iterator whose key equals the current key, dropping the ones that
become invalid. Fuel bounds the loop by the number of heap entries. -/
def skipSameKeyHeap : Nat → List (Nat × Stream) → Key → List (Nat × Stream)
  | 0, h, _ => h
  | fuel + 1, h, k =>
    match h with
    | (i, e :: es) :: rest =>
      if e.key.cmp k == .eq then
        let h' := if es.isEmpty then rest else heapInsert (i, es) rest
        skipSameKeyHeap fuel h' k
      else h
    | _ => h

/-- Total number of entries remaining in the heap, used as loop fuel. -/
def heapSize (h : List (Nat × Stream)) : Nat := (h.map (·.2.length)).sum

/-- `MergeIterator::next` (lines 127-165): advance same-keyed heap entries,
advance the current winner; if it became invalid replace it from the heap,
otherwise swap it with the heap minimum when the minimum is smaller. The
source `unwrap`s `current`; callers only call `next` while valid, so the
invalid cases return the iterator unchanged here. -/
def MergeIterator.next (m : MergeIterator) : MergeIterator :=
  match m.current with
  | none => m
  | some (ci, cs) =>
    match cs with
    | [] => m
    | ce :: crest =>
      let heap := skipSameKeyHeap (heapSize m.iters + 1) m.iters ce.key
      if crest.isEmpty then
        match heap with
        | top :: rest => ⟨rest, some top⟩
        | [] => ⟨[], some (ci, crest)⟩
      else
        match heap with
        | top :: rest =>
          if wrapperCmp top (ci, crest) == .lt then
            ⟨heapInsert (ci, crest) rest, some top⟩
          else ⟨heap, some (ci, crest)⟩
        | [] => ⟨[], some (ci, crest)⟩

/-- The observable output of a `MergeIterator`. -/
def MergeIterator.collect : Nat → MergeIterator → Stream
  | 0, _ => []
  | fuel + 1, m =>
    if m.isValid then
      match m.peek with
      | some e => e :: MergeIterator.collect fuel m.next
      | none => []
    else []

/-! ### MemTable (`src/mem_table.rs`)

The `SkipMap<KeyBytes, Bytes>` orders its keys by the `Ord` of
`Key<Bytes>`, which ignores timestamps (`src/key.rs`), so the map holds at
most one entry per user key; it is modelled as an association list sorted
by that order. -/

structure MemTable where
  map : List (Key × Bytes)
deriving DecidableEq, Repr

/-- `MemTable::scan` over two `Bound::Included` endpoints (the form
`get_with_ts` uses, `src/lsm_storage.rs` lines 370-378): the entries within
the closed range under the map's key order. -/
def MemTable.scanIncl (m : MemTable) (lower upper : Key) : Stream :=
  (m.map.filter (fun e =>
      !(Key.cmp e.1 lower == .lt) && !(Key.cmp e.1 upper == .gt))).map
    (fun e => ⟨e.1, e.2⟩)

/-! ### LsmIterator (`src/lsm_iterator.rs`)

The `LsmIterator` in the source tree (lines 19-86) wraps the merged inner
iterator with an end bound and a validity flag; its constructor takes only
the inner iterator and the end bound. It has no `read_ts` parameter and no
timestamp handling of any kind — the call in `get_with_ts`
(`src/lsm_storage.rs` lines 426-433) passes a third `ts` argument that this
constructor does not accept; that argument is dropped here. -/

/-- Rust's `Bound<T>`. -/
inductive Bound (α : Type) where
  | included (x : α)
  | excluded (x : α)
  | unbounded
deriving DecidableEq, Repr

structure LsmIterator where
  inner : Stream
  end_bound : Bound Bytes
  is_valid : Bool
deriving DecidableEq, Repr

/-- `LsmIterator::next_inner` (lines 40-52): advance the inner iterator;
invalid inner clears the flag; otherwise an `Included`/`Excluded` end bound
is compared against the new current key (`Unbounded` leaves the flag
alone). -/
def LsmIterator.nextInner (it : LsmIterator) : LsmIterator :=
  match it.inner.tail with
  | [] => ⟨[], it.end_bound, false⟩
  | e :: rest =>
    let ok :=
      match it.end_bound with
      | .unbounded => it.is_valid
      | .included k => !(byteCmp e.key.userKey k == .gt)
      | .excluded k => byteCmp e.key.userKey k == .lt
    ⟨e :: rest, it.end_bound, ok⟩

/-- `LsmIterator::move_to_non_delete` (lines 54-59): skip entries with an
empty value while valid. Fuel bounds the loop by the inner length. -/
def LsmIterator.moveToNonDelete : Nat → LsmIterator → LsmIterator
  | 0, it => it
  | fuel + 1, it =>
    if it.is_valid && ((it.inner.head?.map (fun e => e.value.isEmpty)).getD false)
    then LsmIterator.moveToNonDelete fuel it.nextInner
    else it

/-- `LsmIterator::new` (lines 29-38). -/
def LsmIterator.new (inner : Stream) (end_bound : Bound Bytes) : LsmIterator :=
  LsmIterator.moveToNonDelete (inner.length + 1)
    ⟨inner, end_bound, !inner.isEmpty⟩

/-! ### The engine state and `get_with_ts` (`src/lsm_storage.rs`) -/

/-- `LsmStorageState` (`src/lsm_storage.rs` lines 39-52). The
`HashMap<usize, Arc<SsTable>>` is an association list. -/
structure LsmStorageState where
  memtable : MemTable
  imm_memtables : List MemTable
  l0_sstables : List Nat
  levels : List (Nat × List Nat)
  sstables : List (Nat × SsTable)
deriving DecidableEq, Repr

/-- `snapshot.sstables[id]` — `none` models the panic on a missing id. -/
def LsmStorageState.getSst (s : LsmStorageState) (id : Nat) : Option SsTable :=
  (s.sstables.find? (fun p => p.1 == id)).map (·.2)

/-- `key_within` (`src/lsm_storage.rs` lines 136-138). -/
def keyWithin (userKey : Bytes) (tableBegin tableEnd : Key) : Bool :=
  !(byteCmp tableBegin.userKey userKey == .gt) &&
    !(byteCmp userKey tableEnd.userKey == .gt)

/-- The `keep_table` closure of `get_with_ts` (lines 383-398) for a table
without a bloom filter (the `else return true` branch): the key-range check
alone. The tables of this embedding carry no bloom filter, matching
`bloom = None`. -/
def keepTable (key : Bytes) (t : SsTable) : Bool :=
  keyWithin key t.first_key t.last_key

/-- The stream an `SstConcatIterator` can still produce through its `next`:
the remaining entries of the held inner iterator. (`next` never crosses a
table boundary — see `SstConcatIterator.next` — so later tables are
unreachable.) -/
def SstConcatIterator.observableStream (c : SstConcatIterator) : Stream :=
  (c.current.map SsTableIterator.remaining).getD []

/-- Loop fuel: one more than the total number of entries in the sources. -/
def streamsFuel (ss : List Stream) : Nat := (ss.map List.length).sum + 1

/-- `LsmStorageInner::get_with_ts` (`src/lsm_storage.rs` lines 361-439):
memtable iterators bracketed to `[(key, TS_RANGE_BEGIN), (key,
TS_RANGE_END)]`, bloom/range-filtered L0 iterators seeked to `(key,
TS_RANGE_BEGIN)`, one concat iterator per level (whose
`create_and_seek_to_key` is `todo!()` and panics whenever a level exists),
all composed through two `TwoMergeIterator`s and the `LsmIterator`, then
the final `is_valid && key == key && value nonempty` check. Missing
`sstables` ids model the source's map-index panics. -/
def LsmStorageInner.getWithTs (s : LsmStorageState) (key : Bytes)
    (_ts : Nat) : Except String (Option Bytes) := do
  let memtableIters :=
    (s.memtable :: s.imm_memtables).map
      (fun m => m.scanIncl ⟨key, TS_RANGE_BEGIN⟩ ⟨key, TS_RANGE_END⟩)
  let memtableIter := MergeIterator.create memtableIters
  let l0Tables ← s.l0_sstables.mapM (fun id =>
    match s.getSst id with
    | some t => pure t
    | none => Except.error "no entry found for key")
  let l0Streams :=
    ((l0Tables.filter (keepTable key)).map
        (fun t => SsTableIterator.createAndSeekToKey t
          ⟨key, TS_RANGE_BEGIN⟩)).map SsTableIterator.remaining
  let l0Iter := MergeIterator.create l0Streams
  let levelIters ← s.levels.mapM (fun lvl => do
    let tables ← lvl.2.mapM (fun id =>
      match s.getSst id with
      | some t => pure t
      | none => Except.error "no entry found for key")
    let _levelSsts := tables.filter (keepTable key)
    (SstConcatIterator.createAndSeekToKey : Except String SstConcatIterator))
  let levelIter := MergeIterator.create
    (levelIters.map SstConcatIterator.observableStream)
  let memStream := MergeIterator.collect (streamsFuel memtableIters) memtableIter
  let l0Stream := MergeIterator.collect (streamsFuel l0Streams) l0Iter
  let innerTwo := TwoMergeIterator.create memStream l0Stream
  let innerStream := TwoMergeIterator.collect
    (memStream.length + l0Stream.length + 1) innerTwo
  let levelStream := MergeIterator.collect
    (streamsFuel (levelIters.map SstConcatIterator.observableStream)) levelIter
  let outerTwo := TwoMergeIterator.create innerStream levelStream
  let outerStream := TwoMergeIterator.collect
    (innerStream.length + levelStream.length + 1) outerTwo
  let it := LsmIterator.new outerStream .unbounded
  if it.is_valid then
    match it.inner.head? with
    | some e =>
      if byteCmp e.key.userKey key == .eq && !e.value.isEmpty then
        pure (some e.value)
      else pure none
    | none => pure none
  else pure none

/-- C1: the claim states that `get_with_ts(k, ts)` observes exactly the
version of `k` with the highest timestamp `ts' ≤ ts`. In the code, a store
holding the single entry `(k = "a", ts' = 2, value = "v2")` in its memtable
and no SSTs returns `None` from `get_with_ts("a", 3)`, although the version
`ts' = 2 ≤ 3` with a non-empty value exists: the L0 side of the first
`TwoMergeIterator` is empty, `choose_a` then selects the exhausted side, and
the whole composed iterator reports invalid (the `LsmIterator` in the tree
additionally has no `read_ts` handling at all). -/
theorem get_with_ts_misses_visible_memtable_entry :
    LsmStorageInner.getWithTs
        ⟨⟨[(⟨[97], 2⟩, [118, 50])]⟩, [], [], [], []⟩ [97] 3
      = .ok none := rfl

/-! ## Leveled compaction (`src/compact/leveled.rs`, `src/compact.rs`,
`src/lsm_storage.rs`) -/

/-- `list[i]` with the source's out-of-bounds panic as an error. -/
def exceptGet {α : Type} (l : List α) (i : Nat) (msg : String) :
    Except String α :=
  match l.get? i with
  | some x => .ok x
  | none => .error msg

/-- `snapshot.sstables.get(id).unwrap()`-style lookup. -/
def exceptGetSst (s : LsmStorageState) (id : Nat) : Except String SsTable :=
  match s.getSst id with
  | some t => .ok t
  | none => .error "called Option::unwrap on a None value"

/-- `LeveledCompactionOptions` (`src/compact/leveled.rs` lines 23-29). -/
structure LeveledCompactionOptions where
  level_size_multiplier : Nat
  level0_file_num_compaction_trigger : Nat
  max_levels : Nat
  base_level_size_mb : Nat
deriving DecidableEq, Repr

/-- `LeveledCompactionTask` (`src/compact/leveled.rs` lines 9-17). -/
structure LeveledCompactionTask where
  upper_level : Option Nat
  upper_level_sst_ids : List Nat
  lower_level : Nat
  lower_level_sst_ids : List Nat
  is_lower_level_bottom_level : Bool
deriving DecidableEq, Repr

/-- Rust `Iterator::min` under the key order: the last minimal element wins
ties (`min_by(Ord::cmp)` keeps the later of equal elements). -/
def rustIterMin (ks : List Key) : Option Key :=
  ks.foldl
    (fun acc k =>
      match acc with
      | none => some k
      | some a => if k.cmp a == .gt then some a else some k) none

/-- Rust `Iterator::max` under the key order: the last maximal element wins
ties. -/
def rustIterMax (ks : List Key) : Option Key :=
  ks.foldl
    (fun acc k =>
      match acc with
      | none => some k
      | some a => if k.cmp a == .lt then some a else some k) none

/-- `find_overlaping_ssts` (`src/compact/leveled.rs` lines 36-69): the key
range spanned by `sst_ids`, then every SST of `levels[in_level - 1]` whose
range intersects it. -/
def LeveledCompactionController.findOverlapingSsts (s : LsmStorageState)
    (sstIds : List Nat) (inLevel : Nat) : Except String (List Nat) := do
  let tables ← sstIds.mapM (exceptGetSst s)
  let beginKey ←
    match rustIterMin (tables.map (·.first_key)) with
    | some k => pure k
    | none => Except.error "called Option::unwrap on a None value"
  let endKey ←
    match rustIterMax (tables.map (·.last_key)) with
    | some k => pure k
    | none => Except.error "called Option::unwrap on a None value"
  let lvl ← exceptGet s.levels (inLevel - 1) "index out of bounds"
  let pairs ← lvl.2.mapM (fun id => do
    let t ← exceptGetSst s id
    pure (id, t))
  pure ((pairs.filter (fun p =>
      !(p.2.last_key.cmp beginKey == .lt || p.2.first_key.cmp endKey == .gt))).map
    (·.1))

/-- The real-size loop of `generate_compaction_task` (lines 79-87): for each
level index below `max_levels`, sum the `table_size` of its SSTs — with the
source's panics for a missing level slot or a missing `sstables` entry. -/
def realSizesFrom (s : LsmStorageState) : Nat → Nat → Except String (List Nat)
  | _, 0 => .ok []
  | i, n + 1 => do
    let lvl ← exceptGet s.levels i "index out of bounds"
    let sizes ← lvl.2.mapM (fun id => do
      let t ← exceptGetSst s id
      pure t.table_size)
    let rest ← realSizesFrom s (i + 1) n
    pure (sizes.sum :: rest)

/-- The target-size loop of `generate_compaction_task` (lines 91-100), run
over the level indices `max_levels - 2, …, 0` in that order: propagate the
target downward when the next level's target exceeds the base size, and
remember the smallest level with a positive target as the base level. -/
def targetLoop (mult baseBytes : Nat) :
    List Nat → List Nat → Nat → List Nat × Nat
  | [], targets, baseLevel => (targets, baseLevel)
  | level :: rest, targets, baseLevel =>
    let nextSize := targets.getD (level + 1) 0
    let thisSize := nextSize / mult
    let targets := if baseBytes < nextSize then targets.set level thisSize
      else targets
    let baseLevel := if 0 < targets.getD level 0 then level + 1 else baseLevel
    targetLoop mult baseBytes rest targets baseLevel

/-- The descending `(ratio, level)` comparison of the priority sort (line
121): is `a`'s priority strictly greater than `b`'s? The source compares
`real / target` as `f64`; here the ratios are compared exactly by
cross-multiplication, which agrees with the `f64` comparison whenever the
ratios are exactly representable (as they are at every input used below)
and also sorts a `real > 0, target = 0` level (`+inf` in `f64`) above every
finite ratio. -/
def prioGt (a b : Nat × Nat × Nat) : Bool :=
  let ar := a.1 * b.2.1
  let br := b.1 * a.2.1
  if ar ≠ br then br < ar else b.2.2 < a.2.2

/-- `priority.sort_by(descending).first()`: the maximum under `prioGt`. -/
def maxPrio : List (Nat × Nat × Nat) → Option (Nat × Nat × Nat)
  | [] => none
  | x :: xs => some (xs.foldl (fun acc y => if prioGt y acc then y else acc) x)

/-- `LeveledCompactionController::generate_compaction_task`
(`src/compact/leveled.rs` lines 71-135): real sizes, target sizes and base
level; the L0 trigger; otherwise the priority pick over **all** levels —
the source never filters on `ratio > 1` before choosing. A level with
`real = 0` and `target = 0` makes the sort's `partial_cmp(...).unwrap()`
panic on the `f64` NaN `0.0 / 0.0` (whenever more than one level is
compared). -/
def LeveledCompactionController.generateCompactionTask
    (opts : LeveledCompactionOptions) (s : LsmStorageState) :
    Except String (Option LeveledCompactionTask) := do
  let real ← realSizesFrom s 0 opts.max_levels
  let baseBytes := opts.base_level_size_mb * 1024 * 1024
  let rmax ← exceptGet real (opts.max_levels - 1) "index out of bounds"
  let targets0 := (List.replicate opts.max_levels 0).set (opts.max_levels - 1)
    (Nat.max rmax baseBytes)
  let (targets, baseLevel) := targetLoop opts.level_size_multiplier baseBytes
    ((List.range (opts.max_levels - 1)).reverse) targets0 opts.max_levels
  if opts.level0_file_num_compaction_trigger ≤ s.l0_sstables.length then
    let lowerIds ← LeveledCompactionController.findOverlapingSsts s
      s.l0_sstables baseLevel
    pure (some ⟨none, s.l0_sstables, baseLevel, lowerIds,
      baseLevel == opts.max_levels⟩)
  else
    let prios := (List.range opts.max_levels).map
      (fun i => (real.getD i 0, targets.getD i 0, i + 1))
    if 2 ≤ opts.max_levels && prios.any (fun p => p.1 == 0 && p.2.1 == 0) then
      Except.error "called Option::unwrap on a None value"
    else
      match maxPrio prios with
      | some (_, _, level) => do
        let lvl ← exceptGet s.levels (level - 1) "index out of bounds"
        let selectSst ←
          match lvl.2 with
          | [] => Except.error "called Option::unwrap on a None value"
          | x :: xs => pure (xs.foldl Nat.min x)
        let lowerIds ← LeveledCompactionController.findOverlapingSsts s
          [selectSst] (level + 1)
        pure (some ⟨some level, [selectSst], level + 1, lowerIds,
          (level + 1) == opts.max_levels⟩)
      | none => pure none

/-- The `filter_map` + `HashSet::remove` pattern of
`apply_compaction_result`: drop the first occurrence of each id of
`toRemove` from the list. -/
def filterMapRemove (toRemove : List Nat) : List Nat → List Nat
  | [] => []
  | x :: rest =>
    if toRemove.contains x then filterMapRemove (toRemove.erase x) rest
    else x :: filterMapRemove toRemove rest

/-- Stable insertion into a list sorted by first key, matching the stable
`Vec::sort_by` of the source (an element goes after existing equal keys). -/
def insertPair (x : Nat × Key) : List (Nat × Key) → List (Nat × Key)
  | [] => [x]
  | y :: ys =>
    if y.2.cmp x.2 == .gt then x :: y :: ys else y :: insertPair x ys

/-- `LeveledCompactionController::apply_compaction_result`
(`src/compact/leveled.rs` lines 137-206). When `upper_level` is `Some`, the
source computes the filtered upper level (lines 157-166) but never assigns
it back into the state — the binding is dead code — so only the `None`
(L0) branch actually removes the upper ids. The lower level is filtered,
extended with `output` and re-sorted by first key; the removed ids of both
sides are returned as files to delete. -/
def LeveledCompactionController.applyCompactionResult (s : LsmStorageState)
    (task : LeveledCompactionTask) (output : List Nat) :
    Except String (LsmStorageState × List Nat) := do
  let s1 ←
    match task.upper_level with
    | some upperLevel => do
      let _deadFilteredUpper ← exceptGet s.levels (upperLevel - 1)
        "index out of bounds"
      pure s
    | none =>
      pure { s with
        l0_sstables := filterMapRemove task.upper_level_sst_ids s.l0_sstables }
  let filesToRemove := task.upper_level_sst_ids ++ task.lower_level_sst_ids
  let lvl ← exceptGet s1.levels (task.lower_level - 1) "index out of bounds"
  let newLower := filterMapRemove task.lower_level_sst_ids lvl.2 ++ output
  let pairs ← newLower.mapM (fun id => do
    let t ← exceptGetSst s1 id
    pure (id, t.first_key))
  let sorted := (pairs.foldl (fun acc x => insertPair x acc) []).map (·.1)
  pure ({ s1 with
    levels := s1.levels.set (task.lower_level - 1) (lvl.1, sorted) },
    filesToRemove)

/-- C7: the claim states that `apply_compaction_result` removes the task's
upper-level ids from `levels[upper - 1]` when `upper_level` is `Some`. In
the code that removal is computed but never written back: for the state
with `levels = [(1, [10]), (2, [20])]` and the task moving SST 10 from
level 1 into level 2 (output SST 30), the resulting state still lists 10 in
level 1 — only the lower level is rewritten to `[30]` — while both 10 and
20 are returned as files to delete. -/
theorem apply_compaction_result_keeps_upper_level_ids :
    LeveledCompactionController.applyCompactionResult
        ⟨⟨[]⟩, [], [], [(1, [10]), (2, [20])],
          [(10, ⟨10, ⟨[97], 0⟩, ⟨[98], 0⟩, 100, []⟩),
           (20, ⟨20, ⟨[99], 0⟩, ⟨[100], 0⟩, 100, []⟩),
           (30, ⟨30, ⟨[99], 0⟩, ⟨[100], 0⟩, 100, []⟩)]⟩
        ⟨some 1, [10], 2, [20], true⟩ [30]
      = .ok (⟨⟨[]⟩, [], [], [(1, [10]), (2, [30])],
          [(10, ⟨10, ⟨[97], 0⟩, ⟨[98], 0⟩, 100, []⟩),
           (20, ⟨20, ⟨[99], 0⟩, ⟨[100], 0⟩, 100, []⟩),
           (30, ⟨30, ⟨[99], 0⟩, ⟨[100], 0⟩, 100, []⟩)]⟩,
        [10, 20]) := rfl

/-- C8: the claim states that when the L0 trigger does not fire, a task is
generated only for a level whose `real_size / target_size` ratio is
strictly greater than 1, and that no task is returned when no level has
ratio `> 1`. In the code there is no `> 1` filter: with two levels of
ratios `0.5` and `1.0` (L1 holds 1 MiB against a 2 MiB target, the bottom
level holds 4 MiB, exactly its target) the code picks the bottom level
(ratio `1.0`), sets `lower_level = max_levels + 1` and panics indexing
`levels[max_levels]` while computing the overlap — instead of returning no
task. -/
theorem generate_compaction_task_missing_ratio_filter :
    LeveledCompactionController.generateCompactionTask ⟨2, 2, 2, 1⟩
        ⟨⟨[]⟩, [], [], [(1, [10]), (2, [20])],
          [(10, ⟨10, ⟨[97], 0⟩, ⟨[98], 0⟩, 1048576, []⟩),
           (20, ⟨20, ⟨[99], 0⟩, ⟨[100], 0⟩, 4194304, []⟩)]⟩
      = .error "index out of bounds" := rfl

/-! ## Engine creation and full compaction (`src/lsm_storage.rs`,
`src/compact.rs`) -/

/-- `CompactionOptions` (`src/compact.rs` lines 80-84). -/
inductive CompactionOptions where
  | leveled (opts : LeveledCompactionOptions)
  | noCompaction
deriving DecidableEq, Repr

/-- `LsmStorageOptions` (`src/lsm_storage.rs` lines 68-81). -/
structure LsmStorageOptions where
  block_size : Nat
  target_sst_size : Nat
  num_memtable_limit : Nat
  compaction_options : CompactionOptions
  enable_wal : Bool
  serializable : Bool
deriving DecidableEq, Repr

/-- `LsmStorageState::create` (`src/lsm_storage.rs` lines 54-64): a fresh
empty state. The `levels` field is `Vec::new()` unconditionally — the
options, including any `Leveled` compaction configuration, are ignored and
no per-level slots are created. -/
def LsmStorageState.create (_options : LsmStorageOptions) : LsmStorageState :=
  { memtable := ⟨[]⟩, imm_memtables := [], l0_sstables := [], levels := [],
    sstables := [] }

/-- `CompactionTask` (`src/compact.rs` lines 26-32). -/
inductive CompactionTask where
  | leveled (t : LeveledCompactionTask)
  | forceFullCompaction (l0Ssts : List Nat) (l1Ssts : List Nat)
deriving DecidableEq, Repr

/-- The pre-flight part of `force_full_compaction` (`src/compact.rs` lines
91-107): the options guard (a panic unless compaction is disabled) and the
construction of the `ForceFullCompaction` task, which reads
`snapshot.levels[0]` — an out-of-bounds panic on a state whose `levels` is
empty. Everything after this point operates on the produced task. -/
def forceFullCompactionTask (opts : CompactionOptions) (s : LsmStorageState) :
    Except String CompactionTask :=
  match opts with
  | .leveled _ =>
    .error "full compaction can only be called with compaction is not enabled"
  | .noCompaction => do
    let lvl ← exceptGet s.levels 0 "index out of bounds"
    pure (.forceFullCompaction s.l0_sstables lvl.2)

/-- C9: every state produced by `LsmStorageState::create` has an empty
`levels` vector, whatever the options (including leveled compaction with
`max_levels ≥ 1`); and on any state with empty `levels`,
`force_full_compaction` (which reads `levels[0]`) and
`generate_compaction_task` (which reads `levels[i]` for every
`i < max_levels`) hit an out-of-bounds index and panic instead of returning
a result — on a freshly opened store neither completes normally. -/
theorem fresh_state_levels_empty_and_compaction_panics :
    (∀ opts : LsmStorageOptions, (LsmStorageState.create opts).levels = []) ∧
      (∀ s : LsmStorageState, s.levels = [] →
        forceFullCompactionTask .noCompaction s
          = .error "index out of bounds") ∧
      (∀ (lopts : LeveledCompactionOptions) (s : LsmStorageState),
        s.levels = [] → 1 ≤ lopts.max_levels →
        LeveledCompactionController.generateCompactionTask lopts s
          = .error "index out of bounds") := by
  refine ⟨fun _ => rfl, fun s h => ?_, fun lopts s h hmax => ?_⟩
  · simp [forceFullCompactionTask, exceptGet, h]
  · obtain ⟨k, hk⟩ : ∃ k, lopts.max_levels = k + 1 :=
      ⟨lopts.max_levels - 1, by omega⟩
    simp only [LeveledCompactionController.generateCompactionTask, hk,
      realSizesFrom, exceptGet, h, List.get?_eq_getElem?]
    rfl

/-- Witness for `fresh_state_levels_empty_and_compaction_panics`: the
freshly created state under the default-style options, checked with
concrete leveled options `max_levels = 2`. -/
theorem fresh_state_levels_empty_and_compaction_panics_witness :
    forceFullCompactionTask .noCompaction
        (LsmStorageState.create
          ⟨4096, 1048576, 3, .noCompaction, false, false⟩)
        = .error "index out of bounds" ∧
      LeveledCompactionController.generateCompactionTask ⟨2, 2, 2, 1⟩
        (LsmStorageState.create
          ⟨4096, 1048576, 3, .leveled ⟨2, 2, 2, 1⟩, false, false⟩)
        = .error "index out of bounds" :=
  ⟨fresh_state_levels_empty_and_compaction_panics.2.1 _ rfl,
    fresh_state_levels_empty_and_compaction_panics.2.2 ⟨2, 2, 2, 1⟩ _ rfl
      (by decide)⟩

end Lsm
